import Mathlib

/-!
Shallow embedding of the ZeroDev SDK validator plugins
(`src/plugins/session-key/toSessionKeyValidatorPlugin.ts` and
`src/plugins/modularPermission/toModularPermissionValidatorPlugin.ts`).

Hex data (`viem`'s `Hex` strings) is modelled as the list of hexadecimal
characters of the `0x`-prefixed string with the prefix stripped, so one byte
is two characters, `concat` is list append, and the empty string `"0x"` is
`[]`.  JavaScript `bigint`/`number` values are modelled as `Nat` (both are
non-negative in every code path embedded here; `bigint` is arbitrary
precision exactly like `Nat`).  Fallible code (viem `pad` overflow, thrown
errors, external contract reads) is modelled with `Option`/`Except`.
The `keccak256` hash is an explicit function parameter of every definition
that uses it: the embedding never fixes a concrete hash.
-/

abbrev Hex := List Char

/-- The hexadecimal character (lowercase) of a value below 16, as produced by
viem's `toHex`. -/
def hexDigit (n : Nat) : Char :=
  if n = 0 then '0' else if n = 1 then '1' else if n = 2 then '2'
  else if n = 3 then '3' else if n = 4 then '4' else if n = 5 then '5'
  else if n = 6 then '6' else if n = 7 then '7' else if n = 8 then '8'
  else if n = 9 then '9' else if n = 10 then 'a' else if n = 11 then 'b'
  else if n = 12 then 'c' else if n = 13 then 'd' else if n = 14 then 'e'
  else 'f'

/-- Fuel-driven worker for `natToHex` (fuel `n + 1` always suffices since the
argument shrinks by a factor of 16 every step). -/
def natToHexAux : Nat → Nat → Hex
  | 0, _ => []
  | fuel + 1, n =>
    if n < 16 then [hexDigit n]
    else natToHexAux fuel (n / 16) ++ [hexDigit (n % 16)]

/-- viem's `toHex` on a non-negative integer, without the `0x` prefix: the
minimal big-endian hexadecimal digit string (`toHex 0 = "0"`, possibly of odd
length, exactly like viem). -/
def natToHex (n : Nat) : Hex := natToHexAux (n + 1) n

/-- Numeric value of one hexadecimal character (either case). -/
def hexDigitVal (c : Char) : Nat :=
  if c = '0' then 0 else if c = '1' then 1 else if c = '2' then 2
  else if c = '3' then 3 else if c = '4' then 4 else if c = '5' then 5
  else if c = '6' then 6 else if c = '7' then 7 else if c = '8' then 8
  else if c = '9' then 9 else if c = 'a' ∨ c = 'A' then 10
  else if c = 'b' ∨ c = 'B' then 11 else if c = 'c' ∨ c = 'C' then 12
  else if c = 'd' ∨ c = 'D' then 13 else if c = 'e' ∨ c = 'E' then 14
  else 15

/-- Unsigned big-endian numeric value of a hex string. -/
def hexToNat (h : Hex) : Nat := h.foldl (fun acc c => 16 * acc + hexDigitVal c) 0

/-- viem's `pad` (left padding with zeroes) on a hex string, in characters:
`size` is the target size in BYTES, so the output has `2 * size` characters.
Total version, used only under the guard of `padHex?`. -/
def padHex (size : Nat) (h : Hex) : Hex :=
  List.replicate (2 * size - h.length) '0' ++ h

/-- viem's `pad`: fails (throws `SizeExceedsPaddingSizeError`) when the input
is longer than the requested size. -/
def padHex? (size : Nat) (h : Hex) : Option Hex :=
  if h.length ≤ 2 * size then some (padHex size h) else none

/-- JavaScript `toLowerCase` restricted to the characters that occur in hex
strings: only the letters A-F change. -/
def lowerHexChar (c : Char) : Char :=
  if c = 'A' then 'a' else if c = 'B' then 'b' else if c = 'C' then 'c'
  else if c = 'D' then 'd' else if c = 'E' then 'e' else if c = 'F' then 'f'
  else c

/-- `toLowerCase` on a hex string. -/
def hexToLower (h : Hex) : Hex := h.map lowerHexChar

/-- `pad("0x00", { size: 32 })`: the 32-zero-byte placeholder word. -/
def zeroWord : Hex := List.replicate 64 '0'

/-- Concatenation of a list of hex strings (viem `concat` over an array). -/
def hexJoin (l : List Hex) : Hex := l.foldr (fun a b => a ++ b) []

/-- Lexicographic (byte-wise) comparison used by merkletreejs `sortPairs`. -/
def hexLe : Hex → Hex → Bool
  | [], _ => true
  | _ :: _, [] => false
  | a :: as, b :: bs => if a = b then hexLe as bs else decide (a < b)

/-- Modelled from the spec: merkletreejs pair hashing with `sortPairs: true`
(§4.2: "sort the pair before hashing so H(a,b) == H(b,a)"); the merkletreejs
library is an external dependency, absent from `src/`. -/
def hashPair (keccak : Hex → Hex) (a b : Hex) : Hex :=
  if hexLe a b then keccak (a ++ b) else keccak (b ++ a)

/-- Modelled from the spec: one level step of the commitment tree (§4.2:
"at each tree level pair adjacent hashes in original order ...; odd node at a
level is promoted unchanged"). -/
def levelUp (keccak : Hex → Hex) : List Hex → List Hex
  | a :: b :: rest => hashPair keccak a b :: levelUp keccak rest
  | l => l

/-- Modelled from the spec: fuel-driven bottom-up fold of tree levels down to
the root (fuel `l.length` always suffices since `levelUp` strictly shrinks a
level of two or more nodes). -/
def buildLevels (keccak : Hex → Hex) : Nat → List Hex → Hex
  | _, [a] => a
  | 0, _ => []
  | fuel + 1, l => buildLevels keccak fuel (levelUp keccak l)

/-- Modelled from the spec: merkletreejs `getRoot` over a list of (already
hashed, when `hashLeaves` is set) leaves. -/
def buildRoot (keccak : Hex → Hex) (l : List Hex) : Hex :=
  buildLevels keccak l.length l

/-- Index of the first occurrence of a hex string in a list (merkletreejs
locates the requested leaf by `indexOf`; `none` when absent). -/
def idxOf? (target : Hex) : List Hex → Option Nat
  | [] => none
  | a :: rest => if target = a then some 0 else (idxOf? target rest).map (fun i => i + 1)

/-- Modelled from the spec: fuel-driven proof collection, one sibling per
level, climbing from the leaf index to the root (§3: "proof is a sequence of
32-byte sibling hashes"). -/
def proofLevels (keccak : Hex → Hex) : Nat → List Hex → Nat → List Hex
  | 0, _, _ => []
  | fuel + 1, level, idx =>
    if level.length ≤ 1 then []
    else
      (match (if idx % 2 = 0 then level[idx + 1]? else level[idx - 1]?) with
        | some s => [s]
        | none => []) ++
      proofLevels keccak fuel (levelUp keccak level) (idx / 2)

/-- Modelled from the spec: merkletreejs `getHexProof` — the sibling list for
the first leaf equal to `leaf`, and `[]` when the leaf is not in the tree. -/
def getHexProof (keccak : Hex → Hex) (leafHashes : List Hex) (leaf : Hex) : List Hex :=
  match idxOf? leaf leafHashes with
  | none => []
  | some i => proofLevels keccak leafHashes.length leafHashes i

/-- Modelled from the spec: the `DUMMY_ECDSA_SIG` constant of the SDK
(`constants` module, absent from `src/`) — a fixed dummy ECDSA signature of
the byte length of a real one (65 bytes), used for gas estimation (§4.5:
"a fixed dummy signature of the same byte length"). -/
def DUMMY_ECDSA_SIG : Hex := List.replicate 128 'f' ++ ['1', 'c']

/-- Modelled from the spec: `fixSignedData` of `utils.ts`, absent from
`src/` — the byte-level fix-up of the recovery/parity byte of a 65-byte ECDSA
signature (§4.5: "normalizes/fixes signer-specific signature malleability
artifacts"): a trailing `v` of `0`/`1` is shifted to the canonical `27`/`28`,
anything else is left unchanged. -/
def fixSignedData (sig : Hex) : Hex :=
  if sig.length = 130 then
    let v := hexToNat (sig.drop 128)
    if v = 0 ∨ v = 1 then sig.take 128 ++ padHex 1 (natToHex (v + 27))
    else sig
  else sig

namespace SessionKey

/-- `Operation` enum of `toSessionKeyValidatorPlugin.ts` (`Call = 0`,
`DelegateCall = 1`). -/
inductive Operation where
  | Call
  | DelegateCall
deriving DecidableEq

/-- Numeric value of the `Operation` enum. -/
def Operation.toNat : Operation → Nat
  | .Call => 0
  | .DelegateCall => 1

/-- `ParamOperator` enum of `toSessionKeyValidatorPlugin.ts`. -/
inductive ParamOperator where
  | EQUAL
  | GREATER_THAN
  | LESS_THAN
  | GREATER_THAN_OR_EQUAL
  | LESS_THAN_OR_EQUAL
  | NOT_EQUAL
deriving DecidableEq

/-- Numeric value of the `ParamOperator` enum (`EQUAL = 0`, ...). -/
def ParamOperator.toNat : ParamOperator → Nat
  | .EQUAL => 0
  | .GREATER_THAN => 1
  | .LESS_THAN => 2
  | .GREATER_THAN_OR_EQUAL => 3
  | .LESS_THAN_OR_EQUAL => 4
  | .NOT_EQUAL => 5

/-- One `ParamRules` entry of a permission: offset of the 32-byte argument
word, comparison operator, comparison value. -/
structure ParamRules where
  offset : Nat
  condition : ParamOperator
  param : Hex
deriving DecidableEq

/-- `executionRule` sub-window of a permission (`validAfter`, `interval`,
`runs`), defaulted to all zeroes at plugin construction. -/
structure ExecutionRule where
  validAfter : Nat
  interval : Nat
  runs : Nat
deriving DecidableEq

/-- One fully-defaulted permission entry, as produced by the construction-time
defaulting of `signerToSessionKeyValidator` (lines 96-113 of
`toSessionKeyValidatorPlugin.ts`): every optional field resolved, `index`
stamped from the construction position. -/
structure Permission where
  target : Hex
  valueLimit : Nat
  sig : Hex
  rules : List ParamRules
  index : Nat
  executionRule : ExecutionRule
  operation : Operation
deriving DecidableEq

/-- The construction-time-resolved `sessionKeyData` record (lines 83-88):
`validAfter`/`validUntil` defaulted to `0`, `paymaster` defaulted to the zero
address, permissions fully defaulted. -/
structure SessionKeyData where
  validAfter : Nat
  validUntil : Nat
  paymaster : Hex
  permissions : List Permission
deriving DecidableEq

/-- Result of the on-chain `nonces(account)` read (`getSessionNonces`,
lines 181-196): `(lastNonce, invalidNonce)`. -/
structure SessionNonces where
  lastNonce : Nat
  invalidNonce : Nat
deriving DecidableEq

/-- A user operation's outbound call in decoded form: the target address,
the attached value and the inner call data whose first 4 bytes are the
selector.  Modelled from the spec: the matcher of `utils.ts`
(`findMatchingPermissions`), absent from `src/`, first ABI-decodes the
`execute(to, value, data, op)` wrapper of the operation's call data (§4.3,
§8 scenario); the embedding works on the decoded triple directly and models
the single-call (`execute`) path. -/
structure Call where
  toAddr : Hex
  value : Nat
  data : Hex
deriving DecidableEq

/-- Modelled from the spec: evaluation of one `ParamCondition` (§4.3:
"decode fixed-width parameter words from callData at the offsets declared by
each rule's ParamConditions"; "numeric comparisons are on the parameter
interpreted as an unsigned integer").  The word at offset `o` is the 32-byte
slice of the call data after the 4-byte selector. -/
def evalParamRule (data : Hex) (r : ParamRules) : Bool :=
  let word := (data.drop (8 + 64 * r.offset)).take 64
  match r.condition with
  | .EQUAL => hexToNat word = hexToNat r.param
  | .GREATER_THAN => hexToNat word > hexToNat r.param
  | .LESS_THAN => hexToNat word < hexToNat r.param
  | .GREATER_THAN_OR_EQUAL => hexToNat word ≥ hexToNat r.param
  | .LESS_THAN_OR_EQUAL => hexToNat word ≤ hexToNat r.param
  | .NOT_EQUAL => hexToNat word ≠ hexToNat r.param

/-- Modelled from the spec: whether one permission authorizes one call (§4.3:
"a rule matches iff selector matches AND every declared ParamCondition
evaluates true"; §8 scenario: target must match and the attached value must
not exceed the value ceiling). -/
def permissionMatches (c : Call) (p : Permission) : Bool :=
  hexToLower p.target = hexToLower c.toAddr
    && c.value ≤ p.valueLimit
    && hexToLower (c.data.take 8) = hexToLower p.sig
    && p.rules.all (evalParamRule c.data)

/-- Modelled from the spec: `findMatchingPermissions` of `utils.ts`, absent
from `src/` — the first permission of the rule set matching the call, `none`
when no rule matches (or the rule set is empty). -/
def findMatchingPermissions (c : Call) (perms : List Permission) : Option Permission :=
  perms.find? (fun p => permissionMatches c p)

/-- Modelled from the spec: encoding of one `ParamRules` entry inside the
fixed-layout permission encoding (offset word, operator byte, value word). -/
def encodeParamRule (r : ParamRules) : Hex :=
  padHex 32 (natToHex r.offset) ++ padHex 1 (natToHex r.condition.toNat)
    ++ padHex 32 r.param

/-- Modelled from the spec: `encodePermissionData` of `utils.ts`, absent from
`src/` — the canonical fixed-layout encoding of one permission (§6: "fixed-
width concatenation of target/operation/selector/value-ceiling/parameter-
conditions/time-window/index"), pure and deterministic. -/
def encodePermissionData (p : Permission) : Hex :=
  padHex 20 p.target
    ++ padHex 1 (natToHex p.operation.toNat)
    ++ padHex 4 p.sig
    ++ padHex 32 (natToHex p.valueLimit)
    ++ hexJoin (p.rules.map encodeParamRule)
    ++ padHex 6 (natToHex p.executionRule.validAfter)
    ++ padHex 6 (natToHex p.executionRule.interval)
    ++ padHex 6 (natToHex p.executionRule.runs)
    ++ padHex 4 (natToHex p.index)

/-- Modelled from the spec: `encodePermissionData` with its optional
`merkleProof` second argument — the matched rule's encoding followed by the
proof's 32-byte sibling hashes (§3 authorization payload:
"encodedMatchedRule ++ merkleProof"). -/
def encodePermissionDataWithProof (p : Permission) (merkleProof : List Hex) : Hex :=
  encodePermissionData p ++ hexJoin merkleProof

/-- The encoded-leaf sequence handed to the merkle-tree constructor
(lines 140-145 of `toSessionKeyValidatorPlugin.ts`): each permission encoded,
and a singleton list duplicated
(`if (encodedPermissionData.length && encodedPermissionData.length === 1)
encodedPermissionData.push(encodedPermissionData[0])`). -/
def leavesOf (perms : List Permission) : List Hex :=
  match perms.map encodePermissionData with
  | [x] => [x, x]
  | l => l

/-- The leaf list the `merkleTree` of lines 147-155 is built over: the encoded
permissions when any are configured, else the single unhashed 32-zero-byte
placeholder (`new MerkleTree([pad("0x00", { size: 32 })], keccak256,
{ hashLeaves: false, complete: true })`). -/
def merkleInputLeaves (perms : List Permission) : List Hex :=
  if perms.length ≠ 0 then leavesOf perms else [zeroWord]

/-- `merkleTree.getHexRoot()`: with permissions configured the leaves are
hashed (`hashLeaves: true`) and folded with sorted pairs; with no permissions
the single placeholder leaf is the root itself (`hashLeaves: false`). -/
def merkleRootOf (keccak : Hex → Hex) (perms : List Permission) : Hex :=
  if perms.length ≠ 0 then buildRoot keccak ((leavesOf perms).map keccak)
  else buildRoot keccak [zeroWord]

/-- `merkleTree.getHexProof(leaf)` of the tree of lines 147-155. -/
def treeProof (keccak : Hex → Hex) (perms : List Permission) (leaf : Hex) : List Hex :=
  if perms.length ≠ 0 then getHexProof keccak ((leavesOf perms).map keccak) leaf
  else getHexProof keccak [zeroWord] leaf

/-- The `AuthorizationError` message thrown by
`getEncodedPermissionProofData` (line 207). -/
def authorizationErrorMsg : String :=
  "SessionKeyValidator: No matching permission found for the userOp"

/-- `getEncodedPermissionProofData` (lines 198-235): find the matching
permission; throw when none matches and the root is not the empty-set
placeholder; otherwise return the matched permission's encoding with its
merkle proof, or `"0x"` when the permission set is empty / nothing matched. -/
def getEncodedPermissionProofData (keccak : Hex → Hex) (perms : List Permission)
    (c : Call) : Except String Hex :=
  let matchingPermission := findMatchingPermissions c perms
  if matchingPermission = none ∧ ¬ merkleRootOf keccak perms = zeroWord then
    .error authorizationErrorMsg
  else
    match matchingPermission with
    | some m =>
      if perms.length ≠ 0 then
        .ok (encodePermissionDataWithProof m
          (treeProof keccak perms (keccak (encodePermissionData m))))
      else .ok []
    | none => .ok []

/-- The six-field `concat` of `getEnableData` (lines 167-178), given the
resolved `lastNonce`; each viem `pad` may fail on an oversized input. -/
def assembleEnableData (keccak : Hex → Hex) (signerAddr : Hex)
    (sk : SessionKeyData) (lastNonce : Nat) : Except String Hex :=
  match padHex? 32 (merkleRootOf keccak sk.permissions),
        padHex? 6 (natToHex sk.validAfter),
        padHex? 6 (natToHex sk.validUntil),
        padHex? 32 (natToHex lastNonce) with
  | some root, some va, some vu, some nonceHex =>
    .ok (signerAddr ++ root ++ va ++ vu ++ sk.paymaster ++ nonceHex)
  | _, _, _, _ => .error "SizeExceedsPaddingSizeError"

/-- `getEnableData` (lines 157-179): throws when the kernel account address is
missing; resolves the nonce from the pinned `enabledLastNonce` when supplied,
else from the on-chain `nonces` read (`lastNonce + 1`); then concatenates the
enable-data fields.  The second component of the result counts the on-chain
reads performed (`0` or `1`), making the external-read effect explicit. -/
def getEnableData (keccak : Hex → Hex) (signerAddr : Hex) (sk : SessionKeyData)
    (oracle : Hex → Except String SessionNonces)
    (kernelAccountAddress : Option Hex) (enabledLastNonce : Option Nat) :
    Except String (Hex × Nat) :=
  match kernelAccountAddress with
  | none => .error "Kernel account address not provided"
  | some addr =>
    match enabledLastNonce with
    | some n => (assembleEnableData keccak signerAddr sk n).map (fun bs => (bs, 0))
    | none =>
      match oracle addr with
      | .error e => .error e
      | .ok s =>
        (assembleEnableData keccak signerAddr sk (s.lastNonce + 1)).map
          (fun bs => (bs, 1))

/-- `signUserOperation` (lines 246-267): the raw ECDSA signature over the user
operation hash is an input (the hash and the signer are external
collaborators); the result is
`concat([signerAddress, fixSignedData(signature), proofData])`, failing when
`getEncodedPermissionProofData` throws. -/
def signUserOperation (keccak : Hex → Hex) (signerAddr : Hex)
    (sk : SessionKeyData) (rawSignature : Hex) (c : Call) : Except String Hex :=
  let fixedSignature := fixSignedData rawSignature
  match getEncodedPermissionProofData keccak sk.permissions c with
  | .error e => .error e
  | .ok proofData => .ok (signerAddr ++ fixedSignature ++ proofData)

/-- `getStubSignature` (lines 276-282): the same framing with the fixed dummy
signature constant in place of the real signature. -/
def getStubSignature (keccak : Hex → Hex) (signerAddr : Hex)
    (sk : SessionKeyData) (c : Call) : Except String Hex :=
  match getEncodedPermissionProofData keccak sk.permissions c with
  | .error e => .error e
  | .ok proofData => .ok (signerAddr ++ DUMMY_ECDSA_SIG ++ proofData)

end SessionKey

namespace SessionKey

/-- The relevant field of the `getExecution(selector)` read on the kernel
account: the validator address stored for the selector. -/
structure ExecDetail where
  validator : Hex
deriving DecidableEq

/-- The `sessionData(signer, account)` read on the validator contract
(lines 300-309): `(merkleRoot, validAfter, validUntil, paymaster, nonce)`. -/
structure StoredSession where
  merkleRoot : Hex
  validAfter : Nat
  validUntil : Nat
  paymaster : Hex
  nonce : Nat
deriving DecidableEq

/-- `isEnabled` (lines 285-333).  The whole body sits in a `try`/`catch`
returning `false`, so the embedding flattens every failure — of either
external read, of a viem `pad`, or of the inner `getEnableData` re-derivation
— to `false`; the two external reads are passed as already-resolved `Except`
values.  A positive result needs: the stored validator to equal the
configured one case-insensitively, the stored nonce to be non-zero, and the
stored enable-data fields, re-concatenated, to equal (case-insensitively) the
locally re-derived enable-data for the stored nonce. -/
def isEnabled (keccak : Hex → Hex) (signerAddr validatorAddress : Hex)
    (sk : SessionKeyData) (oracle : Hex → Except String SessionNonces)
    (kernelAccountAddress : Hex)
    (execRead : Except String ExecDetail)
    (sessionRead : Except String StoredSession) : Bool :=
  match execRead, sessionRead with
  | .ok execDetail, .ok ed =>
    match padHex? 32 ed.merkleRoot, padHex? 6 (natToHex ed.validAfter),
          padHex? 6 (natToHex ed.validUntil), padHex? 32 (natToHex ed.nonce) with
    | some root, some va, some vu, some nonceHex =>
      match getEnableData keccak signerAddr sk oracle
              (some kernelAccountAddress) (some ed.nonce) with
      | .ok expected =>
        (hexToLower execDetail.validator = hexToLower validatorAddress : Bool)
          && (ed.nonce ≠ 0 : Bool)
          && (hexToLower (signerAddr ++ root ++ va ++ vu ++ ed.paymaster ++ nonceHex)
                = hexToLower expected.1 : Bool)
      | .error _ => false
    | _, _, _, _ => false
  | _, _ => false

end SessionKey

namespace ModularPermission

/-- Result of the on-chain `nonces(account)` read of
`toModularPermissionValidatorPlugin.ts` (lines 58-73): `(lastNonce, revoked)`. -/
structure Nonces where
  lastNonce : Nat
  revoked : Nat
deriving DecidableEq

/-- The relevant field of the `permissions(permissionId, account)` read
(lines 212-221): component `[3]` of the returned tuple, compared against the
32-zero-byte word at line 225. -/
structure StoredPermission where
  field3 : Hex
deriving DecidableEq

/-- The tail `concat` of the modular `getEnableData` (lines 81-99), given the
resolved nonce.  `maxFlag` is the `MAX_FLAG` constant (`constants.js`, absent
from `src/`) and `abiTail` the output of `encodeAbiParameters` over the
policies/signer data — ABI type encoding is an external trusted codec (§1),
so its output is an opaque parameter. -/
def assembleEnableData (validAfter validUntil : Nat)
    (signerContractAddress maxFlag abiTail : Hex) (nonce : Nat) :
    Except String Hex :=
  match padHex? 16 (natToHex nonce), padHex? 6 (natToHex validAfter),
        padHex? 6 (natToHex validUntil) with
  | some nonceHex, some va, some vu =>
    .ok (nonceHex ++ maxFlag ++ va ++ vu ++ signerContractAddress ++ abiTail)
  | _, _, _ => .error "SizeExceedsPaddingSizeError"

/-- Modular `getEnableData` (lines 75-101): with an account address the nonce
is the on-chain `lastNonce + 1`, without one it is `0` and no read happens.
The second component counts the on-chain reads performed. -/
def getEnableData (validAfter validUntil : Nat)
    (signerContractAddress maxFlag abiTail : Hex)
    (oracle : Hex → Except String Nonces)
    (kernelAccountAddress : Option Hex) : Except String (Hex × Nat) :=
  match kernelAccountAddress with
  | some addr =>
    match oracle addr with
    | .error e => .error e
    | .ok s =>
      (assembleEnableData validAfter validUntil signerContractAddress maxFlag
        abiTail (s.lastNonce + 1)).map (fun bs => (bs, 1))
  | none =>
    (assembleEnableData validAfter validUntil signerContractAddress maxFlag
      abiTail 0).map (fun bs => (bs, 0))

/-- Modular `isEnabled` (lines 197-231), with the `try`/`catch` flattened as
in the session-key variant: a read failure yields `false`; a positive result
needs the stored validator to equal the configured one case-insensitively and
the stored permission's component `[3]` to differ (case-sensitively, `!==`)
from the 32-zero-byte word. -/
def isEnabled (validatorAddress : Hex)
    (execRead : Except String SessionKey.ExecDetail)
    (permRead : Except String StoredPermission) : Bool :=
  match execRead, permRead with
  | .ok execDetail, .ok permission =>
    (hexToLower execDetail.validator = hexToLower validatorAddress : Bool)
      && (permission.field3 ≠ zeroWord : Bool)
  | _, _ => false

end ModularPermission

deriving instance DecidableEq for Except

/-! Auxiliary lemmas about the embedding's byte-string primitives. -/

theorem natToHexAux_length_le : ∀ fuel n k, n < fuel → 0 < k → n < 16 ^ k →
    (natToHexAux fuel n).length ≤ k := by
  intro fuel
  induction fuel with
  | zero => intro n k h; omega
  | succ fuel ih =>
    intro n k hn hk hpow
    unfold natToHexAux
    by_cases hsmall : n < 16
    · simp [hsmall]
      omega
    · simp [hsmall]
      have hk2 : 2 ≤ k := by
        by_contra hlt
        have : k = 1 := by omega
        subst this
        simp at hpow
        omega
      have hdiv : n / 16 < fuel := by
        have : n / 16 < n := Nat.div_lt_self (by omega) (by omega)
        omega
      have hdivpow : n / 16 < 16 ^ (k - 1) := by
        apply Nat.div_lt_of_lt_mul
        have : 16 ^ (k - 1) * 16 = 16 ^ k := by
          have : k - 1 + 1 = k := by omega
          calc 16 ^ (k - 1) * 16 = 16 ^ (k - 1 + 1) := by rw [pow_succ]
          _ = 16 ^ k := by rw [this]
        omega
      have := ih (n / 16) (k - 1) hdiv (by omega) hdivpow
      omega

theorem natToHex_length_le (n k : Nat) (hk : 0 < k) (h : n < 16 ^ k) :
    (natToHex n).length ≤ k :=
  natToHexAux_length_le (n + 1) n k (by omega) hk h

theorem padHex?_of_le (size : Nat) (h : Hex) (hle : h.length ≤ 2 * size) :
    padHex? size h = some (padHex size h) := by
  simp [padHex?, hle]

theorem padHex_length (size : Nat) (h : Hex) (hle : h.length ≤ 2 * size) :
    (padHex size h).length = 2 * size := by
  simp [padHex]
  omega

theorem fixSignedData_length (s : Hex) : (fixSignedData s).length = s.length := by
  unfold fixSignedData
  by_cases h130 : s.length = 130
  · simp only [h130, if_pos rfl]
    by_cases hv : hexToNat (s.drop 128) = 0 ∨ hexToNat (s.drop 128) = 1
    · simp only [hv, if_pos]
      rcases hv with hv | hv <;>
        simp [hv, List.length_append, List.length_take, h130] <;> decide
    · simp [h130, hv]
  · simp [h130]

theorem hashPair_length (keccak : Hex → Hex)
    (hk : ∀ b, (keccak b).length = 64) (a b : Hex) :
    (hashPair keccak a b).length = 64 := by
  unfold hashPair
  split <;> apply hk

theorem levelUp_length_le (keccak : Hex → Hex) :
    ∀ l : List Hex, (levelUp keccak l).length ≤ l.length
  | [] => by simp [levelUp]
  | [a] => by simp [levelUp]
  | a :: b :: rest => by
    have ih := levelUp_length_le keccak rest
    simp only [levelUp, List.length_cons]
    omega

theorem levelUp_ne_nil (keccak : Hex → Hex) :
    ∀ l : List Hex, l ≠ [] → levelUp keccak l ≠ []
  | [], h => absurd rfl h
  | [a], _ => by simp [levelUp]
  | a :: b :: rest, _ => by simp [levelUp]

theorem levelUp_all64 (keccak : Hex → Hex) (hk : ∀ b, (keccak b).length = 64) :
    ∀ l : List Hex, (∀ x ∈ l, x.length = 64) →
      ∀ x ∈ levelUp keccak l, x.length = 64
  | [], _ => by simp [levelUp]
  | [a], h => by simpa [levelUp] using h
  | a :: b :: rest, h => by
    intro x hx
    simp only [levelUp, List.mem_cons] at hx
    rcases hx with hx | hx
    · rw [hx]; exact hashPair_length keccak hk a b
    · exact levelUp_all64 keccak hk rest
        (fun y hy => h y (by simp [hy])) x hx

theorem buildLevels_length (keccak : Hex → Hex)
    (hk : ∀ b, (keccak b).length = 64) :
    ∀ fuel (l : List Hex), l ≠ [] → l.length ≤ fuel →
      (∀ x ∈ l, x.length = 64) → (buildLevels keccak fuel l).length = 64 := by
  intro fuel
  induction fuel with
  | zero =>
    intro l hne hlen _
    cases l with
    | nil => exact absurd rfl hne
    | cons a rest => simp at hlen
  | succ fuel ih =>
    intro l hne hlen h64
    cases l with
    | nil => exact absurd rfl hne
    | cons a rest =>
      cases rest with
      | nil =>
        simp only [buildLevels]
        exact h64 a (by simp)
      | cons b rest2 =>
        show (buildLevels keccak fuel (levelUp keccak (a :: b :: rest2))).length = 64
        apply ih
        · exact levelUp_ne_nil keccak _ (by simp)
        · have h1 := levelUp_length_le keccak rest2
          simp only [levelUp, List.length_cons] at *
          omega
        · exact levelUp_all64 keccak hk _ h64

namespace SessionKey

theorem leavesOf_ne_nil (perms : List Permission) (h : perms ≠ []) :
    leavesOf perms ≠ [] := by
  unfold leavesOf
  split
  · simp
  · intro hnil
    exact h (by simpa using hnil)

theorem merkleRoot_length (keccak : Hex → Hex)
    (hk : ∀ b, (keccak b).length = 64) (perms : List Permission) :
    (merkleRootOf keccak perms).length = 64 := by
  unfold merkleRootOf
  by_cases h : perms.length ≠ 0
  · rw [if_pos h]
    apply buildLevels_length keccak hk
    · have : leavesOf perms ≠ [] :=
        leavesOf_ne_nil perms (by intro hnil; rw [hnil] at h; simp at h)
      simpa using this
    · exact le_refl _
    · intro x hx
      rcases List.mem_map.mp hx with ⟨y, _, rfl⟩
      exact hk y
  · rw [if_neg h]
    simp [buildRoot, buildLevels, zeroWord]

theorem assembleEnableData_ok (keccak : Hex → Hex)
    (hk : ∀ b, (keccak b).length = 64) (signerAddr : Hex)
    (sk : SessionKeyData) (hva : sk.validAfter < 16 ^ 12)
    (hvu : sk.validUntil < 16 ^ 12) (lastNonce : Nat)
    (hn : lastNonce < 16 ^ 64) :
    assembleEnableData keccak signerAddr sk lastNonce
      = .ok (signerAddr ++ padHex 32 (merkleRootOf keccak sk.permissions)
          ++ padHex 6 (natToHex sk.validAfter)
          ++ padHex 6 (natToHex sk.validUntil)
          ++ sk.paymaster ++ padHex 32 (natToHex lastNonce)) := by
  unfold assembleEnableData
  rw [padHex?_of_le 32 _ (le_of_eq (by rw [merkleRoot_length keccak hk])),
      padHex?_of_le 6 (natToHex sk.validAfter)
        (le_trans (natToHex_length_le _ 12 (by omega) hva) (by omega)),
      padHex?_of_le 6 (natToHex sk.validUntil)
        (le_trans (natToHex_length_le _ 12 (by omega) hvu) (by omega)),
      padHex?_of_le 32 (natToHex lastNonce)
        (le_trans (natToHex_length_le _ 64 (by omega) hn) (by omega))]

end SessionKey

/-! Concrete fixtures used by the witness theorems. -/

/-- A concrete executable stand-in for the abstract `keccak` parameter with
32-byte output, used only to instantiate witness theorems. -/
def keccakC : Hex → Hex := fun h => padHex 32 (natToHex (hexToNat h % 997))

theorem keccakC_len : ∀ b, (keccakC b).length = 64 := by
  intro b
  apply padHex_length
  have h2 : hexToNat b % 997 < 997 := Nat.mod_lt _ (by norm_num)
  have h1 : hexToNat b % 997 < 16 ^ 3 := by
    have h3 : (16 : Nat) ^ 3 = 4096 := by norm_num
    omega
  exact le_trans (natToHex_length_le _ 3 (by norm_num) h1) (by norm_num)

def signerC : Hex := List.replicate 40 'a'

def paymasterC : Hex := List.replicate 40 'b'

def accountC : Hex := List.replicate 40 'c'

def validatorC : Hex := List.replicate 40 'd'

def oracleC : Hex → Except String SessionKey.SessionNonces := fun _ => .ok ⟨4, 0⟩

def skEmptyC : SessionKey.SessionKeyData := ⟨0, 0, paymasterC, []⟩

def permC : SessionKey.Permission :=
  ⟨['a', 'b', 'c', 'd'], 5, ['1', '2', '3', '4', '5', '6', '7', '8'], [], 0,
    ⟨0, 0, 0⟩, .Call⟩

def skOneC : SessionKey.SessionKeyData := ⟨0, 0, paymasterC, [permC]⟩

def callC : SessionKey.Call :=
  ⟨['a', 'b', 'c', 'd'], 3, ['1', '2', '3', '4', '5', '6', '7', '8', '0', '0']⟩

def callNoMatchC : SessionKey.Call :=
  ⟨['a', 'b', 'c', 'd'], 3, ['f', 'f', 'f', 'f', '5', '6', '7', '8']⟩

def sigC : Hex := List.replicate 130 'f'

set_option maxRecDepth 40000

/-- C2: for every configured session (any account address, validity window,
paymaster, nonce — sized as the on-chain types size them, with a 32-byte
hash), the enable-data returned by `getEnableData` is exactly the
concatenation, in this fixed order, of the delegate signer address
(20 bytes), the merkle root padded to 32 bytes, `validAfter` padded to
6 bytes, `validUntil` padded to 6 bytes, the paymaster address (20 bytes) and
the nonce padded to 32 bytes — nothing reordered, resized, or omitted (each
segment's character length is 2 per byte, total 116 bytes). -/
theorem getEnableData_layout (keccak : Hex → Hex)
    (hk : ∀ b, (keccak b).length = 64) (signerAddr : Hex)
    (hs : signerAddr.length = 40) (sk : SessionKey.SessionKeyData)
    (hp : sk.paymaster.length = 40) (hva : sk.validAfter < 16 ^ 12)
    (hvu : sk.validUntil < 16 ^ 12)
    (oracle : Hex → Except String SessionKey.SessionNonces) (addr : Hex)
    (nonce : Nat) (hn : nonce < 16 ^ 64) :
    SessionKey.getEnableData keccak signerAddr sk oracle (some addr) (some nonce)
      = .ok (signerAddr
          ++ padHex 32 (SessionKey.merkleRootOf keccak sk.permissions)
          ++ padHex 6 (natToHex sk.validAfter)
          ++ padHex 6 (natToHex sk.validUntil)
          ++ sk.paymaster
          ++ padHex 32 (natToHex nonce), 0)
    ∧ (padHex 32 (SessionKey.merkleRootOf keccak sk.permissions)).length = 64
    ∧ (padHex 6 (natToHex sk.validAfter)).length = 12
    ∧ (padHex 6 (natToHex sk.validUntil)).length = 12
    ∧ (padHex 32 (natToHex nonce)).length = 64
    ∧ (signerAddr
        ++ padHex 32 (SessionKey.merkleRootOf keccak sk.permissions)
        ++ padHex 6 (natToHex sk.validAfter)
        ++ padHex 6 (natToHex sk.validUntil)
        ++ sk.paymaster
        ++ padHex 32 (natToHex nonce)).length = 232 := by
  have l1 : (padHex 32 (SessionKey.merkleRootOf keccak sk.permissions)).length = 64 :=
    padHex_length 32 _ (le_of_eq (SessionKey.merkleRoot_length keccak hk sk.permissions))
  have l2 : (padHex 6 (natToHex sk.validAfter)).length = 12 :=
    padHex_length 6 _ (le_trans (natToHex_length_le _ 12 (by omega) hva) (by omega))
  have l3 : (padHex 6 (natToHex sk.validUntil)).length = 12 :=
    padHex_length 6 _ (le_trans (natToHex_length_le _ 12 (by omega) hvu) (by omega))
  have l4 : (padHex 32 (natToHex nonce)).length = 64 :=
    padHex_length 32 _ (le_trans (natToHex_length_le _ 64 (by omega) hn) (by omega))
  refine ⟨?_, l1, l2, l3, l4, ?_⟩
  · simp only [SessionKey.getEnableData]
    rw [SessionKey.assembleEnableData_ok keccak hk signerAddr sk hva hvu nonce hn]
    rfl
  · simp only [List.length_append, hs, hp, l1, l2, l3, l4]

/-- C2 witness at a concrete session and nonce. -/
theorem getEnableData_layout_witness :
    SessionKey.getEnableData keccakC signerC skEmptyC oracleC (some accountC) (some 7)
      = .ok (signerC
          ++ padHex 32 (SessionKey.merkleRootOf keccakC skEmptyC.permissions)
          ++ padHex 6 (natToHex skEmptyC.validAfter)
          ++ padHex 6 (natToHex skEmptyC.validUntil)
          ++ skEmptyC.paymaster
          ++ padHex 32 (natToHex 7), 0) :=
  (getEnableData_layout keccakC keccakC_len signerC rfl skEmptyC rfl
    (by decide) (by decide) oracleC accountC 7 (by decide)).1

/-- C4 counterexample: with a pinned nonce supplied but no account address,
`getEnableData` does not succeed — it throws the configuration error, so the
claim "with a pinned nonce but no account address it succeeds" is false. -/
theorem getEnableData_pinned_without_account_fails :
    SessionKey.getEnableData keccakC signerC skEmptyC oracleC none (some 5)
      = .error "Kernel account address not provided" := rfl

/-- C4 (amended): `getEnableData` fails with the configuration error exactly
when no kernel account address is supplied — even when a pinned nonce is
available — and never otherwise: with an account address and a pinned
in-range nonce it succeeds, performing no on-chain read. -/
theorem getEnableData_config_error (keccak : Hex → Hex) (signerAddr : Hex)
    (sk : SessionKey.SessionKeyData)
    (oracle : Hex → Except String SessionKey.SessionNonces) :
    (∀ pinned, SessionKey.getEnableData keccak signerAddr sk oracle none pinned
        = .error "Kernel account address not provided")
    ∧ (∀ (_ : ∀ b, (keccak b).length = 64),
        sk.validAfter < 16 ^ 12 → sk.validUntil < 16 ^ 12 →
        ∀ (addr : Hex) (n : Nat), n < 16 ^ 64 →
        ∃ bs, SessionKey.getEnableData keccak signerAddr sk oracle
                (some addr) (some n) = .ok (bs, 0)) := by
  constructor
  · intro pinned
    rfl
  · intro hk hva hvu addr n hn
    refine ⟨signerAddr ++ padHex 32 (SessionKey.merkleRootOf keccak sk.permissions)
      ++ padHex 6 (natToHex sk.validAfter) ++ padHex 6 (natToHex sk.validUntil)
      ++ sk.paymaster ++ padHex 32 (natToHex n), ?_⟩
    simp only [SessionKey.getEnableData]
    rw [SessionKey.assembleEnableData_ok keccak hk signerAddr sk hva hvu n hn]
    rfl

/-- C4 amended-claim witness: both branches at concrete inputs. -/
theorem getEnableData_config_error_witness :
    (SessionKey.getEnableData keccakC signerC skEmptyC oracleC none (some 9)
        = .error "Kernel account address not provided")
    ∧ ∃ bs, SessionKey.getEnableData keccakC signerC skEmptyC oracleC
              (some accountC) (some 9) = .ok (bs, 0) :=
  ⟨(getEnableData_config_error keccakC signerC skEmptyC oracleC).1 (some 9),
   (getEnableData_config_error keccakC signerC skEmptyC oracleC).2 keccakC_len
     (by decide) (by decide) accountC 9 (by decide)⟩

/-- C5: the enable-data bytes built with pinned nonce N equal the enable-data
bytes built by resolving the on-chain nonce, whenever the on-chain read
reports last-used nonce N - 1 (the read count differs, the bytes do not). -/
theorem getEnableData_pinned_eq_resolved (keccak : Hex → Hex)
    (signerAddr : Hex) (sk : SessionKey.SessionKeyData)
    (oracle : Hex → Except String SessionKey.SessionNonces) (addr : Hex)
    (N inv : Nat) (hN : 1 ≤ N) (ho : oracle addr = .ok ⟨N - 1, inv⟩) :
    (SessionKey.getEnableData keccak signerAddr sk oracle (some addr) (some N)).map
        Prod.fst
      = (SessionKey.getEnableData keccak signerAddr sk oracle (some addr) none).map
        Prod.fst := by
  simp only [SessionKey.getEnableData, ho]
  have hsub : N - 1 + 1 = N := by omega
  rw [hsub]
  cases SessionKey.assembleEnableData keccak signerAddr sk N <;> rfl

/-- C5 witness: pinned nonce 5 against an oracle reporting last nonce 4. -/
theorem getEnableData_pinned_eq_resolved_witness :
    (SessionKey.getEnableData keccakC signerC skEmptyC oracleC (some accountC)
        (some 5)).map Prod.fst
      = (SessionKey.getEnableData keccakC signerC skEmptyC oracleC (some accountC)
          none).map Prod.fst :=
  getEnableData_pinned_eq_resolved keccakC signerC skEmptyC oracleC accountC 5 0
    (by decide) rfl

namespace ModularPermission

theorem assembleEnableDataModular_ok (validAfter validUntil : Nat)
    (hva : validAfter < 16 ^ 12) (hvu : validUntil < 16 ^ 12)
    (signerContractAddress maxFlag abiTail : Hex) (nonce : Nat)
    (hn : nonce < 16 ^ 32) :
    assembleEnableData validAfter validUntil signerContractAddress maxFlag
        abiTail nonce
      = .ok (padHex 16 (natToHex nonce) ++ maxFlag
          ++ padHex 6 (natToHex validAfter) ++ padHex 6 (natToHex validUntil)
          ++ signerContractAddress ++ abiTail) := by
  unfold assembleEnableData
  rw [padHex?_of_le 16 (natToHex nonce)
        (le_trans (natToHex_length_le _ 32 (by omega) hn) (by omega)),
      padHex?_of_le 6 (natToHex validAfter)
        (le_trans (natToHex_length_le _ 12 (by omega) hva) (by omega)),
      padHex?_of_le 6 (natToHex validUntil)
        (le_trans (natToHex_length_le _ 12 (by omega) hvu) (by omega))]

end ModularPermission

/-- C10: the modular-permission `getEnableData` called without an account
address does not fail and performs no on-chain read (read count 0), and its
leading 16-byte nonce field is all zeroes; with an account address supplied,
the leading nonce field is the on-chain last nonce plus one (read count 1). -/
theorem modular_getEnableData_nonce (validAfter validUntil : Nat)
    (hva : validAfter < 16 ^ 12) (hvu : validUntil < 16 ^ 12)
    (signerContractAddress maxFlag abiTail : Hex)
    (oracle : Hex → Except String ModularPermission.Nonces) :
    (ModularPermission.getEnableData validAfter validUntil
        signerContractAddress maxFlag abiTail oracle none
      = .ok (padHex 16 (natToHex 0) ++ maxFlag
          ++ padHex 6 (natToHex validAfter) ++ padHex 6 (natToHex validUntil)
          ++ signerContractAddress ++ abiTail, 0))
    ∧ padHex 16 (natToHex 0) = List.replicate 32 '0'
    ∧ (∀ (addr : Hex) (s : ModularPermission.Nonces), oracle addr = .ok s →
        s.lastNonce + 1 < 16 ^ 32 →
        ModularPermission.getEnableData validAfter validUntil
            signerContractAddress maxFlag abiTail oracle (some addr)
          = .ok (padHex 16 (natToHex (s.lastNonce + 1)) ++ maxFlag
              ++ padHex 6 (natToHex validAfter) ++ padHex 6 (natToHex validUntil)
              ++ signerContractAddress ++ abiTail, 1)) := by
  refine ⟨?_, by decide, ?_⟩
  · simp only [ModularPermission.getEnableData]
    rw [ModularPermission.assembleEnableDataModular_ok validAfter validUntil hva hvu
      signerContractAddress maxFlag abiTail 0 (by norm_num)]
    rfl
  · intro addr s ho hn
    simp only [ModularPermission.getEnableData, ho]
    rw [ModularPermission.assembleEnableDataModular_ok validAfter validUntil hva hvu
      signerContractAddress maxFlag abiTail (s.lastNonce + 1) hn]
    rfl

def oracleMC : Hex → Except String ModularPermission.Nonces := fun _ => .ok ⟨4, 0⟩

def maxFlagC : Hex := List.replicate 23 '0' ++ ['1']

def abiTailC : Hex := ['d', 'e', 'a', 'd']

/-- C10 witness: both the account-less and the account-ful branch at concrete
inputs. -/
theorem modular_getEnableData_nonce_witness :
    (ModularPermission.getEnableData 0 0 signerC maxFlagC abiTailC oracleMC none
      = .ok (padHex 16 (natToHex 0) ++ maxFlagC ++ padHex 6 (natToHex 0)
          ++ padHex 6 (natToHex 0) ++ signerC ++ abiTailC, 0))
    ∧ ModularPermission.getEnableData 0 0 signerC maxFlagC abiTailC oracleMC
        (some accountC)
      = .ok (padHex 16 (natToHex 5) ++ maxFlagC ++ padHex 6 (natToHex 0)
          ++ padHex 6 (natToHex 0) ++ signerC ++ abiTailC, 1) :=
  ⟨(modular_getEnableData_nonce 0 0 (by decide) (by decide) signerC maxFlagC
      abiTailC oracleMC).1,
   (modular_getEnableData_nonce 0 0 (by decide) (by decide) signerC maxFlagC
      abiTailC oracleMC).2.2 accountC ⟨4, 0⟩ rfl (by decide)⟩

/-- C3: for the empty rule set the commitment tree is the single-node tree
over the unhashed 32-zero-byte placeholder, its root is that placeholder
itself, and `getEncodedPermissionProofData` returns `"0x"` without an error
for every call. -/
theorem emptyRuleSet_placeholder (keccak : Hex → Hex) (c : SessionKey.Call) :
    SessionKey.merkleInputLeaves [] = [zeroWord]
    ∧ SessionKey.merkleRootOf keccak [] = zeroWord
    ∧ SessionKey.getEncodedPermissionProofData keccak [] c = .ok [] :=
  ⟨rfl, rfl, rfl⟩

namespace SessionKey

theorem getEncoded_empty (keccak : Hex → Hex) (c : Call) :
    getEncodedPermissionProofData keccak [] c = .ok [] := rfl

theorem find_some_ne_nil {c : Call} {perms : List Permission} {m : Permission}
    (hfind : findMatchingPermissions c perms = some m) : perms ≠ [] := by
  intro hnil
  rw [hnil] at hfind
  simp [findMatchingPermissions] at hfind

theorem getEncoded_some (keccak : Hex → Hex) (perms : List Permission)
    (c : Call) (m : Permission)
    (hfind : findMatchingPermissions c perms = some m) :
    getEncodedPermissionProofData keccak perms c
      = .ok (encodePermissionDataWithProof m
          (treeProof keccak perms (keccak (encodePermissionData m)))) := by
  have hne : perms ≠ [] := find_some_ne_nil hfind
  simp only [getEncodedPermissionProofData, hfind]
  rw [if_neg (by simp)]
  rw [if_pos (by simp [List.length_eq_zero, hne])]

theorem getEncoded_none (keccak : Hex → Hex) (perms : List Permission)
    (c : Call) (_hne : perms ≠ [])
    (hroot : merkleRootOf keccak perms ≠ zeroWord)
    (hfind : findMatchingPermissions c perms = none) :
    getEncodedPermissionProofData keccak perms c
      = .error authorizationErrorMsg := by
  simp only [getEncodedPermissionProofData, hfind]
  rw [if_pos ⟨trivial, hroot⟩]

end SessionKey

/-- C1: `signUserOperation` fails with the authorization error exactly when
the configured rule set is non-empty and no rule matches the call (given that
the non-empty tree's root is not the 32-zero-byte placeholder); with an empty
rule set it returns delegate address ++ fixed signature ++ "0x" (empty proof
segment), and with a matching rule it returns delegate address ++ fixed
signature ++ encoded matched rule with its merkle proof. -/
theorem signUserOperation_authorization (keccak : Hex → Hex)
    (signerAddr : Hex) (sk : SessionKey.SessionKeyData) (rawSig : Hex)
    (c : SessionKey.Call)
    (hroot : sk.permissions ≠ [] →
      SessionKey.merkleRootOf keccak sk.permissions ≠ zeroWord) :
    (SessionKey.signUserOperation keccak signerAddr sk rawSig c
        = .error SessionKey.authorizationErrorMsg
      ↔ sk.permissions ≠ []
        ∧ SessionKey.findMatchingPermissions c sk.permissions = none)
    ∧ (sk.permissions = [] →
        SessionKey.signUserOperation keccak signerAddr sk rawSig c
          = .ok (signerAddr ++ fixSignedData rawSig ++ []))
    ∧ (∀ m, SessionKey.findMatchingPermissions c sk.permissions = some m →
        SessionKey.signUserOperation keccak signerAddr sk rawSig c
          = .ok (signerAddr ++ fixSignedData rawSig
              ++ SessionKey.encodePermissionDataWithProof m
                  (SessionKey.treeProof keccak sk.permissions
                    (keccak (SessionKey.encodePermissionData m))))) := by
  have hok : ∀ p, SessionKey.getEncodedPermissionProofData keccak sk.permissions c = .ok p →
      SessionKey.signUserOperation keccak signerAddr sk rawSig c
        = .ok (signerAddr ++ fixSignedData rawSig ++ p) := by
    intro p hp
    unfold SessionKey.signUserOperation
    rw [hp]
  refine ⟨⟨?_, ?_⟩, ?_, ?_⟩
  · intro herr
    by_cases hnil : sk.permissions = []
    · rw [hok [] (by rw [hnil]; exact SessionKey.getEncoded_empty keccak c)] at herr
      simp at herr
    · refine ⟨hnil, ?_⟩
      cases hfind : SessionKey.findMatchingPermissions c sk.permissions with
      | none => rfl
      | some m =>
        rw [hok _ (SessionKey.getEncoded_some keccak sk.permissions c m hfind)] at herr
        simp at herr
  · rintro ⟨hne, hfind⟩
    unfold SessionKey.signUserOperation
    rw [SessionKey.getEncoded_none keccak sk.permissions c hne (hroot hne) hfind]
  · intro hnil
    exact hok [] (by rw [hnil]; exact SessionKey.getEncoded_empty keccak c)
  · intro m hfind
    exact hok _ (SessionKey.getEncoded_some keccak sk.permissions c m hfind)

/-- C1 witness: a one-rule set whose root is not the placeholder, with a
matching call. -/
theorem signUserOperation_authorization_witness :
    SessionKey.signUserOperation keccakC signerC skOneC sigC callC
      = .ok (signerC ++ fixSignedData sigC
          ++ SessionKey.encodePermissionDataWithProof permC
              (SessionKey.treeProof keccakC skOneC.permissions
                (keccakC (SessionKey.encodePermissionData permC)))) :=
  (signUserOperation_authorization keccakC signerC skOneC sigC callC
    (fun _ => by decide)).2.2 permC (by decide)

/-- C6: a rule set of exactly one permission yields a two-element leaf
sequence whose second element duplicates the first, and the tree then gives a
one-element inclusion proof for that leaf whose verification (folding the
sorted-pair hash up from the hashed leaf) recomputes the root. -/
theorem singlePermission_duplicate_leaf (keccak : Hex → Hex)
    (p : SessionKey.Permission) :
    SessionKey.leavesOf [p]
        = [SessionKey.encodePermissionData p, SessionKey.encodePermissionData p]
    ∧ (SessionKey.leavesOf [p]).length = 2
    ∧ SessionKey.treeProof keccak [p] (keccak (SessionKey.encodePermissionData p))
        = [keccak (SessionKey.encodePermissionData p)]
    ∧ List.foldl (hashPair keccak) (keccak (SessionKey.encodePermissionData p))
        (SessionKey.treeProof keccak [p] (keccak (SessionKey.encodePermissionData p)))
      = SessionKey.merkleRootOf keccak [p] := by
  have hidx : idxOf? (keccak (SessionKey.encodePermissionData p))
      [keccak (SessionKey.encodePermissionData p),
        keccak (SessionKey.encodePermissionData p)] = some 0 := by
    unfold idxOf?
    rw [if_pos rfl]
  have hproof : SessionKey.treeProof keccak [p]
      (keccak (SessionKey.encodePermissionData p))
        = [keccak (SessionKey.encodePermissionData p)] := by
    show getHexProof keccak
      [keccak (SessionKey.encodePermissionData p),
        keccak (SessionKey.encodePermissionData p)]
      (keccak (SessionKey.encodePermissionData p)) = _
    unfold getHexProof
    rw [hidx]
    rfl
  refine ⟨rfl, rfl, hproof, ?_⟩
  rw [hproof]
  rfl

/-- C7: on every operation where the proof lookup succeeds, the outputs of
`getStubSignature` and `signUserOperation` have identical framing — delegate
address, then a 65-byte signature, then one and the same proof segment from
the same real proof lookup — and hence identical total byte length; only the
signature bytes differ. -/
theorem stub_matches_sign_framing (keccak : Hex → Hex) (signerAddr : Hex)
    (sk : SessionKey.SessionKeyData) (rawSig : Hex) (c : SessionKey.Call)
    (hs : rawSig.length = 130) (p : Hex)
    (hp : SessionKey.getEncodedPermissionProofData keccak sk.permissions c
        = .ok p) :
    SessionKey.signUserOperation keccak signerAddr sk rawSig c
        = .ok (signerAddr ++ fixSignedData rawSig ++ p)
    ∧ SessionKey.getStubSignature keccak signerAddr sk c
        = .ok (signerAddr ++ DUMMY_ECDSA_SIG ++ p)
    ∧ (fixSignedData rawSig).length = DUMMY_ECDSA_SIG.length
    ∧ (signerAddr ++ fixSignedData rawSig ++ p).length
        = (signerAddr ++ DUMMY_ECDSA_SIG ++ p).length := by
  have hfix : (fixSignedData rawSig).length = 130 := by
    rw [fixSignedData_length]
    exact hs
  have hdum : DUMMY_ECDSA_SIG.length = 130 := by decide
  refine ⟨?_, ?_, by rw [hfix, hdum], by simp [List.length_append, hfix, hdum]⟩
  · unfold SessionKey.signUserOperation
    rw [hp]
  · unfold SessionKey.getStubSignature
    rw [hp]

/-- C7 witness: empty rule set, proof segment `"0x"`. -/
theorem stub_matches_sign_framing_witness :
    SessionKey.signUserOperation keccakC signerC skEmptyC sigC callC
        = .ok (signerC ++ fixSignedData sigC ++ [])
    ∧ SessionKey.getStubSignature keccakC signerC skEmptyC callC
        = .ok (signerC ++ DUMMY_ECDSA_SIG ++ []) :=
  ⟨(stub_matches_sign_framing keccakC signerC skEmptyC sigC callC rfl [] rfl).1,
   (stub_matches_sign_framing keccakC signerC skEmptyC sigC callC rfl [] rfl).2.1⟩

/-- C8: `isEnabled` never surfaces an error in either validator variant: a
failed external read yields `false` (the embedding already flattens every
caught failure to `false`, so the result is a total boolean), and a `true`
result requires — in both variants — the stored validator to equal the
configured validator address under case-insensitive comparison, and in the
session-key variant additionally a non-zero stored nonce and a
case-insensitive byte match between the stored enable-data fields and the
locally re-derived enable-data. -/
theorem isEnabled_never_throws (keccak : Hex → Hex)
    (signerAddr validatorAddress : Hex) (sk : SessionKey.SessionKeyData)
    (oracle : Hex → Except String SessionKey.SessionNonces) (acct : Hex)
    (execRead : Except String SessionKey.ExecDetail)
    (sessionRead : Except String SessionKey.StoredSession)
    (permRead : Except String ModularPermission.StoredPermission)
    (msg : String) :
    (SessionKey.isEnabled keccak signerAddr validatorAddress sk oracle acct
        (.error msg) sessionRead = false)
    ∧ (SessionKey.isEnabled keccak signerAddr validatorAddress sk oracle acct
        execRead (.error msg) = false)
    ∧ (SessionKey.isEnabled keccak signerAddr validatorAddress sk oracle acct
        execRead sessionRead = true →
        ∃ d ed, execRead = .ok d ∧ sessionRead = .ok ed
          ∧ hexToLower d.validator = hexToLower validatorAddress
          ∧ ed.nonce ≠ 0
          ∧ ∃ expected, SessionKey.getEnableData keccak signerAddr sk oracle
              (some acct) (some ed.nonce) = .ok expected
            ∧ ∃ root va vu nonceHex,
                padHex? 32 ed.merkleRoot = some root
                ∧ padHex? 6 (natToHex ed.validAfter) = some va
                ∧ padHex? 6 (natToHex ed.validUntil) = some vu
                ∧ padHex? 32 (natToHex ed.nonce) = some nonceHex
                ∧ hexToLower (signerAddr ++ root ++ va ++ vu
                      ++ ed.paymaster ++ nonceHex)
                    = hexToLower expected.1)
    ∧ (ModularPermission.isEnabled validatorAddress (.error msg) permRead
        = false)
    ∧ (ModularPermission.isEnabled validatorAddress execRead (.error msg)
        = false)
    ∧ (ModularPermission.isEnabled validatorAddress execRead permRead = true →
        ∃ d perm, execRead = .ok d ∧ permRead = .ok perm
          ∧ hexToLower d.validator = hexToLower validatorAddress
          ∧ perm.field3 ≠ zeroWord) := by
  refine ⟨?_, ?_, ?_, ?_, ?_, ?_⟩
  · cases sessionRead <;> rfl
  · cases execRead <;> rfl
  · intro h
    cases hE : execRead with
    | error e =>
      rw [hE] at h
      cases sessionRead <;> simp [SessionKey.isEnabled] at h
    | ok d =>
      cases hS : sessionRead with
      | error e =>
        rw [hE, hS] at h
        simp [SessionKey.isEnabled] at h
      | ok ed =>
        rw [hE, hS] at h
        simp only [SessionKey.isEnabled] at h
        cases hP1 : padHex? 32 ed.merkleRoot with
        | none => rw [hP1] at h; simp at h
        | some root =>
        rw [hP1] at h
        cases hP2 : padHex? 6 (natToHex ed.validAfter) with
        | none => rw [hP2] at h; simp at h
        | some va =>
        rw [hP2] at h
        cases hP3 : padHex? 6 (natToHex ed.validUntil) with
        | none => rw [hP3] at h; simp at h
        | some vu =>
        rw [hP3] at h
        cases hP4 : padHex? 32 (natToHex ed.nonce) with
        | none => rw [hP4] at h; simp at h
        | some nonceHex =>
        rw [hP4] at h
        cases hG : SessionKey.getEnableData keccak signerAddr sk oracle
            (some acct) (some ed.nonce) with
        | error e => rw [hG] at h; simp at h
        | ok expected =>
        rw [hG] at h
        simp only [Bool.and_eq_true, Bool.not_eq_true',
          decide_eq_false_iff_not, decide_eq_true_eq] at h
        exact ⟨d, ed, rfl, rfl, h.1.1, h.1.2, expected, hG,
          root, va, vu, nonceHex, hP1, hP2, hP3, hP4, h.2⟩
  · cases permRead <;> rfl
  · cases execRead <;> rfl
  · intro h
    cases hE : execRead with
    | error e =>
      rw [hE] at h
      cases permRead <;> simp [ModularPermission.isEnabled] at h
    | ok d =>
      cases hP : permRead with
      | error e =>
        rw [hE, hP] at h
        simp [ModularPermission.isEnabled] at h
      | ok perm =>
        rw [hE, hP] at h
        simp only [ModularPermission.isEnabled, Bool.and_eq_true,
          Bool.not_eq_true', decide_eq_false_iff_not, decide_eq_true_eq] at h
        exact ⟨d, perm, rfl, rfl, h.1, h.2⟩

def execDetailC : SessionKey.ExecDetail := ⟨validatorC⟩

def storedC : SessionKey.StoredSession := ⟨zeroWord, 0, 0, paymasterC, 7⟩

/-- C8 witness: failed reads give `false` in both variants, and a concrete
fully-consistent state yields the positive-result requirements. -/
theorem isEnabled_never_throws_witness :
    (SessionKey.isEnabled keccakC signerC validatorC skEmptyC oracleC accountC
        (.error "transport") (.ok storedC) = false)
    ∧ (ModularPermission.isEnabled validatorC (.error "transport")
        (.ok ⟨['a', 'b']⟩) = false)
    ∧ ∃ d ed, (Except.ok execDetailC : Except String SessionKey.ExecDetail)
          = .ok d
        ∧ (Except.ok storedC : Except String SessionKey.StoredSession)
          = .ok ed
        ∧ hexToLower d.validator = hexToLower validatorC
        ∧ ed.nonce ≠ 0
        ∧ ∃ expected, SessionKey.getEnableData keccakC signerC skEmptyC
            oracleC (some accountC) (some ed.nonce) = .ok expected
          ∧ ∃ root va vu nonceHex,
              padHex? 32 ed.merkleRoot = some root
              ∧ padHex? 6 (natToHex ed.validAfter) = some va
              ∧ padHex? 6 (natToHex ed.validUntil) = some vu
              ∧ padHex? 32 (natToHex ed.nonce) = some nonceHex
              ∧ hexToLower (signerC ++ root ++ va ++ vu
                    ++ ed.paymaster ++ nonceHex)
                  = hexToLower expected.1 :=
  ⟨(isEnabled_never_throws keccakC signerC validatorC skEmptyC oracleC accountC
      (.error "transport") (.ok storedC) (.ok ⟨['a', 'b']⟩) "transport").1,
   (isEnabled_never_throws keccakC signerC validatorC skEmptyC oracleC accountC
      (.error "transport") (.ok storedC) (.ok ⟨['a', 'b']⟩) "transport").2.2.2.1,
   (isEnabled_never_throws keccakC signerC validatorC skEmptyC oracleC accountC
      (.ok execDetailC) (.ok storedC) (.ok ⟨['a', 'b']⟩) "transport").2.2.1
     (by decide)⟩

/-- C9: in the session-key variant, a stored session whose nonce is `0` makes
`isEnabled` return `false`, whatever the validator, the stored fields and the
outcome of the `getExecution` read. -/
theorem isEnabled_zero_nonce_false (keccak : Hex → Hex)
    (signerAddr validatorAddress : Hex) (sk : SessionKey.SessionKeyData)
    (oracle : Hex → Except String SessionKey.SessionNonces) (acct : Hex)
    (execRead : Except String SessionKey.ExecDetail)
    (stored : SessionKey.StoredSession) (hnonce : stored.nonce = 0) :
    SessionKey.isEnabled keccak signerAddr validatorAddress sk oracle acct
      execRead (.ok stored) = false := by
  cases execRead with
  | error e => rfl
  | ok d =>
    simp only [SessionKey.isEnabled]
    split
    · split
      · simp [hnonce]
      · rfl
    · rfl

/-- C9 witness: a concrete stored session with nonce 0 is reported disabled. -/
theorem isEnabled_zero_nonce_false_witness :
    SessionKey.isEnabled keccakC signerC validatorC skEmptyC oracleC accountC
      (.ok execDetailC) (.ok ⟨zeroWord, 0, 0, paymasterC, 0⟩) = false :=
  isEnabled_zero_nonce_false keccakC signerC validatorC skEmptyC oracleC
    accountC (.ok execDetailC) ⟨zeroWord, 0, 0, paymasterC, 0⟩ rfl
